import Mathlib

/-!
Verification of the shellai terminal chat client.

Shallow embedding of the shellai sources:

* `src/main.rs` — the interactive session: the fenced-code-block extraction
  regex `(?:bash|sh|)`-tagged fences, the raw-mode multiline input loop
  (`read_multiline_input`), and the main interactive loop's error flow.
* `src/agents/openai.rs` — `OpenAIAgent::generate_response`: system-prompt
  construction with fallback, response-status handling, choice extraction.
* `src/utils/directory.rs` — `scan_directory`: depth-limited directory tree
  rendering (hidden-entry filtering, sorting, indentation).

Pure logic is translated directly; the effectful boundary (key events,
filesystem reads, HTTP results, stdin/stdout operations) is made explicit as
data passed to the embedded functions, so that every control path of the Rust
code is a computable path here.
-/

namespace Shellai

/-! ## Code-block extraction (src/main.rs line 193)

The Rust code compiles `Regex::new(r"```(?:bash|sh|)([\s\S]*?)```")` and runs
`captures_iter` over the model reply; each capture's group 1 is then trimmed
(`code.as_str().trim()`, line 293).  The regex engine uses leftmost-first
semantics: the match starts at the earliest position where the whole pattern
can match; the tag alternation prefers `bash`, then `sh`, then the empty tag;
the lazy `[\s\S]*?` stops at the first closing fence.

Backtracking over the tag alternation never changes the outcome: the tag
characters `b a s h` contain no backtick, so a closing fence exists after the
tag exactly when one exists after the opening fence.  The matcher below
therefore commits to the first tag alternative whose literal matches. -/

/-- The backtick character (0x60). -/
def backtick : Char := Char.ofNat 96

/-- The three-backtick fence delimiter. -/
def fence : List Char := [backtick, backtick, backtick]

/-- Split `l` at the first occurrence of the closing fence: returns the
characters before the fence (the lazy capture of `[\s\S]*?`) and the
characters after the fence.  `none` when no fence occurs. -/
def splitAtFence : List Char → Option (List Char × List Char)
  | [] => none
  | c :: cs =>
    if fence.isPrefixOf (c :: cs) then some ([], cs.drop 2)
    else
      match splitAtFence cs with
      | some (cap, rest) => some (c :: cap, rest)
      | none => none

/-- Consume the language tag right after an opening fence, in the regex's
alternation order `bash`, `sh`, empty. -/
def tagSkip (l : List Char) : List Char :=
  if "bash".toList.isPrefixOf l then l.drop 4
  else if "sh".toList.isPrefixOf l then l.drop 2
  else l

/-- Find the leftmost full match of the pattern: returns the group-1 capture
and the text after the match. -/
def findFenceMatch : List Char → Option (List Char × List Char)
  | [] => none
  | c :: cs =>
    if fence.isPrefixOf (c :: cs) then
      match splitAtFence (tagSkip (cs.drop 2)) with
      | some (cap, rest) => some (cap, rest)
      | none => findFenceMatch cs
    else findFenceMatch cs

/-- `captures_iter`: repeatedly take the leftmost match and continue after its
end.  Fuel-indexed so the definition is structural (the fuel is the input
length, which strictly bounds the number of matches). -/
def extractBlocksAux : Nat → List Char → List (List Char)
  | 0, _ => []
  | fuel + 1, l =>
    match findFenceMatch l with
    | none => []
    | some (cap, rest) => cap :: extractBlocksAux fuel rest

/-- All group-1 captures of the bash-fence regex over `l`, in document order. -/
def extractBlocks (l : List Char) : List (List Char) :=
  extractBlocksAux l.length l

/-- `str::trim` on a character list: drop whitespace from both ends
(src/main.rs line 293 applies it to each capture). -/
def trimChars (l : List Char) : List Char :=
  ((l.dropWhile Char.isWhitespace).reverse.dropWhile Char.isWhitespace).reverse

/-- The code blocks the interactive loop offers for execution: each regex
capture, trimmed (src/main.rs lines 287–293). -/
def bashBlocks (s : String) : List String :=
  (extractBlocks s.toList).map (fun cap => String.mk (trimChars cap))

/-! ## Directory scanning (src/utils/directory.rs lines 19–70; the identical
private copy lives in src/agents/openai.rs lines 52–103)

The filesystem is embedded as a tree.  `fs::read_dir` (and the per-entry `?`)
can fail; a directory node carries a `readOk` flag standing for that whole
enumeration succeeding.  A path that exists but is not a directory is `file`;
a path that does not exist is `missing` (`Path::is_dir` is `false` for both,
which is the only property the source consults). -/

inductive FsNode where
  | file : FsNode
  | missing : FsNode
  | dir (readOk : Bool) (children : List (String × FsNode)) : FsNode

instance instDecidableEqExcept {ε α : Type} [DecidableEq ε] [DecidableEq α] :
    DecidableEq (Except ε α)
  | .error e, .error f =>
    if h : e = f then isTrue (by rw [h])
    else isFalse (by intro hh; cases hh; exact h rfl)
  | .error _, .ok _ => isFalse (by intro h; cases h)
  | .ok _, .error _ => isFalse (by intro h; cases h)
  | .ok a, .ok b =>
    if h : a = b then isTrue (by rw [h])
    else isFalse (by intro hh; cases hh; exact h rfl)

/-- `Path::is_dir` on an embedded node. -/
def FsNode.isDirNode : FsNode → Bool
  | .dir _ _ => true
  | _ => false

/-- Lexicographic order on character lists by code point.  This is the order
`Vec::<String>::sort()` sorts by: byte-wise UTF-8 comparison coincides with
code-point lexicographic comparison. -/
def charListLe : List Char → List Char → Bool
  | [], _ => true
  | _ :: _, [] => false
  | a :: as, b :: bs => if a < b then true else if b < a then false else charListLe as bs

/-- Name comparison used when sorting directory entries. -/
def nameLe (s t : String) : Bool := charListLe s.toList t.toList

/-- Entry ordering by name. -/
def entryLe (a b : String × FsNode) : Prop := nameLe a.1 b.1 = true

instance : DecidableRel entryLe := fun a b =>
  inferInstanceAs (Decidable (nameLe a.1 b.1 = true))

/-- `"  ".repeat(current_depth)`. -/
def indentOf (d : Nat) : String := String.join (List.replicate d "  ")

/-- `format!("{}📁 {}/\n", indent, dir)`. -/
def dirLine (d : Nat) (n : String) : String := indentOf d ++ "📁 " ++ n ++ "/\n"

/-- `format!("{}📄 {}\n", indent, file)`. -/
def fileLine (d : Nat) (n : String) : String := indentOf d ++ "📄 " ++ n ++ "\n"

/-- `file_name.starts_with('.')`: the name's first character is a dot. -/
def startsWithDot (s : String) : Bool :=
  match s.toList with
  | [] => false
  | c :: _ => c = '.'

/-- The hidden-entry filter: the source `continue`s over entries whose name
starts with a dot before partitioning (directory.rs lines 36–39). -/
def visibleEntries (children : List (String × FsNode)) : List (String × FsNode) :=
  children.filter (fun e => !(startsWithDot e.1))

/-- The `for dir in dirs` loop (directory.rs lines 53–60): emit the directory
line, then the recursive scan, propagating the first error. -/
def foldDirs (scan : FsNode → Except String String) (d : Nat) :
    List (String × FsNode) → Except String String
  | [] => .ok ""
  | e :: rest =>
    match scan e.2 with
    | .error err => .error err
    | .ok sub =>
      match foldDirs scan d rest with
      | .error err => .error err
      | .ok r => .ok (dirLine d e.1 ++ sub ++ r)

/-- `scan_directory`, indexed by the remaining recursion budget
`fuel = max_depth + 1 - current_depth`: the source's guard
`current_depth > max_depth` is exactly `fuel = 0`. -/
def scanA : Nat → Nat → FsNode → Except String String
  | 0, _, _ => .ok "..."
  | _ + 1, _, .file => .ok ""
  | _ + 1, _, .missing => .ok ""
  | fuel + 1, d, .dir readOk children =>
    if readOk then
      let vis := visibleEntries children
      let ds := List.insertionSort entryLe (vis.filter (fun e => e.2.isDirNode))
      let fls := List.insertionSort entryLe (vis.filter (fun e => !(e.2.isDirNode)))
      match foldDirs (fun c => scanA fuel (d + 1) c) d ds with
      | .error err => .error err
      | .ok dirPart => .ok (dirPart ++ String.join (fls.map (fun e => fileLine d e.1)))
    else .error "read_dir failed"

/-- `scan_directory(path, max_depth, current_depth)` (directory.rs line 19). -/
def scan_directory (node : FsNode) (max_depth current_depth : Nat) : Except String String :=
  scanA (max_depth + 1 - current_depth) current_depth node

/-- A tree in which every directory enumeration succeeds: the complement of
the only error source inside `scan_directory`. -/
inductive NoFail : FsNode → Prop where
  | file : NoFail .file
  | missing : NoFail .missing
  | dir (children : List (String × FsNode)) (h : ∀ e ∈ children, NoFail e.2) :
      NoFail (.dir true children)

/-! ### An entry-level view of the scanner output

`entriesOf` mirrors `scanA` but records the rendered entries (depth, kind,
name) instead of concatenating text.  A proved rendering equation connects
the two, so hidden-entry, ordering and depth claims can be stated on entries
and transported to the produced text. -/

/-- Kind of rendered tree line: directory, file, or the `"..."` placeholder. -/
inductive EKind where
  | dirE : EKind
  | fileE : EKind
  | moreE : EKind
deriving DecidableEq

/-- One rendered entry of the tree output. -/
structure REntry where
  depth : Nat
  kind : EKind
  name : String
deriving DecidableEq

/-- Text of one rendered entry. -/
def renderEntry : REntry → String
  | ⟨d, .dirE, n⟩ => dirLine d n
  | ⟨d, .fileE, n⟩ => fileLine d n
  | ⟨_, .moreE, _⟩ => "..."

/-- Text of a rendered entry list. -/
def renderAll (l : List REntry) : String := String.join (l.map renderEntry)

/-- Entry-level version of `foldDirs`. -/
def foldDirsE (ent : FsNode → Except String (List REntry)) (d : Nat) :
    List (String × FsNode) → Except String (List REntry)
  | [] => .ok []
  | e :: rest =>
    match ent e.2 with
    | .error err => .error err
    | .ok sub =>
      match foldDirsE ent d rest with
      | .error err => .error err
      | .ok r => .ok (⟨d, .dirE, e.1⟩ :: (sub ++ r))

/-- Entry-level version of `scanA`. -/
def entriesOf : Nat → Nat → FsNode → Except String (List REntry)
  | 0, d, _ => .ok [⟨d, .moreE, ""⟩]
  | _ + 1, _, .file => .ok []
  | _ + 1, _, .missing => .ok []
  | fuel + 1, d, .dir readOk children =>
    if readOk then
      let vis := visibleEntries children
      let ds := List.insertionSort entryLe (vis.filter (fun e => e.2.isDirNode))
      let fls := List.insertionSort entryLe (vis.filter (fun e => !(e.2.isDirNode)))
      match foldDirsE (fun c => entriesOf fuel (d + 1) c) d ds with
      | .error err => .error err
      | .ok dirPart => .ok (dirPart ++ fls.map (fun e => ⟨d, .fileE, e.1⟩))
    else .error "read_dir failed"

/-! ## The OpenAI agent (src/agents/openai.rs)

`generate_response` is effectful only at four points: building the system
prompt (current-directory resolution + directory scan), sending the HTTP
request, reading the response status/body, and parsing the JSON body.  Each
of those outcomes is passed in as data. -/

/-- `DEFAULT_SYSTEM_PROMPT` (openai.rs lines 14–29), verbatim. -/
def DEFAULT_SYSTEM_PROMPT : String := "You are ShellAI, a helpful AI assistant in a terminal environment.

When responding, follow these guidelines:

1. When providing bash commands or scripts, always format them in code blocks using ```bash and ``` syntax.
2. Prefer providing executable bash commands when appropriate for the user's request.
3. Keep your bash commands clear, concise, and safe to execute.
4. Include comments in your bash code to explain what each command or section does.
5. For complex operations, break them down into smaller, manageable commands.
6. Always explain what your bash commands will do before showing the code.
7. After showing bash code, explain the expected output or result.
8. If a command might have system-altering effects (like deleting files), provide clear warnings.
9. When possible, include error handling in your bash scripts.
10. Format your responses clearly with appropriate spacing and organization.

Remember that the user can execute your bash code directly from the terminal interface, so make sure your commands are correct and safe."

/-- Result of `env::current_dir()` plus `file_name()`: the absolute path text
and the optional final component. -/
structure CwdInfo where
  path : String
  fileName : Option String

/-- `current_dir.file_name().map(..).unwrap_or_else(|| "unknown")`
(openai.rs lines 114–116). -/
def dirNameOf (c : CwdInfo) : String := c.fileName.getD "unknown"

/-- The `format!` template of `build_system_prompt` (openai.rs lines
123–148), with its three placeholders made explicit. -/
def systemPromptText (dirPath dirName dirTree : String) : String :=
  "You are ShellAI, a helpful AI assistant in a terminal environment.

Current working directory: " ++ dirPath ++ "
Directory name: " ++ dirName ++ "

Directory structure:
" ++ dirTree ++ "

Important: The user is using a terminal interface where they can press Enter to create new lines within their question. Treat all lines as part of a single coherent question or request, even if they appear to be separate statements. The user may be formatting their question across multiple lines for clarity.

When responding, follow these guidelines:

1. When providing bash commands or scripts, always format them in code blocks using ```bash and ``` syntax.
2. Prefer providing executable bash commands when appropriate for the user's request.
3. Keep your bash commands clear, concise, and safe to execute.
4. Include comments in your bash code to explain what each command or section does.
5. For complex operations, break them down into smaller, manageable commands.
6. Always explain what your bash commands will do before showing the code.
7. After showing bash code, explain the expected output or result.
8. If a command might have system-altering effects (like deleting files), provide clear warnings.
9. When possible, include error handling in your bash scripts.
10. Format your responses clearly with appropriate spacing and organization.
11. Be aware of the current directory structure shown above when suggesting commands.
12. When referencing files or directories, use the correct paths based on the current directory.

Remember that the user can execute your bash code directly from the terminal interface, so make sure your commands are correct and safe."

/-- `build_system_prompt` (openai.rs lines 112–151): resolve the working
directory, scan it with depth limit 2, fill the template; either failure
propagates as the scan error. -/
def build_system_prompt (cwd : Except String CwdInfo) (tree : FsNode) :
    Except String String :=
  match cwd with
  | .error e => .error e
  | .ok c =>
    match scan_directory tree 2 0 with
    | .error e => .error e
    | .ok dirTree => .ok (systemPromptText c.path (dirNameOf c) dirTree)

/-- `role`/`content` pair sent to the endpoint. -/
structure ChatMessage where
  role : String
  content : String

/-- One element of the response `choices` array. -/
structure ChatCompletionChoice where
  message : ChatMessage

/-- The parsed completion response body. -/
structure ChatCompletionResponse where
  choices : List ChatCompletionChoice

/-- The `match build_system_prompt()` at openai.rs lines 187–193: on any
error, fall back to `DEFAULT_SYSTEM_PROMPT` and emit a (non-fatal) warning;
the second component records whether the warning was printed. -/
def systemPromptChoice (cwd : Except String CwdInfo) (tree : FsNode) :
    String × Bool :=
  match build_system_prompt cwd tree with
  | .ok p => (p, false)
  | .error _ => (DEFAULT_SYSTEM_PROMPT, true)

/-- The message list of the request body (openai.rs lines 196–209): system
prompt first, then the user prompt verbatim. -/
def requestMessages (cwd : Except String CwdInfo) (tree : FsNode)
    (prompt : String) : List ChatMessage :=
  [⟨"system", (systemPromptChoice cwd tree).1⟩, ⟨"user", prompt⟩]

/-- Response handling of `generate_response` (openai.rs lines 220–235): a
non-success status returns the body as a request error; a parse failure
propagates; otherwise the first choice's content is returned unmodified, and
an empty `choices` array is the "No response from API" error. -/
def handleApiResponse (statusSuccess : Bool) (errorText : String)
    (parsed : Except String ChatCompletionResponse) : Except String String :=
  if statusSuccess then
    match parsed with
    | .error e => .error e
    | .ok completion =>
      match completion.choices.head? with
      | some choice => .ok choice.message.content
      | none => .error "No response from API"
  else .error ("API request failed: " ++ errorText)

/-- `generate_response` (openai.rs lines 177–235) as a whole: the messages it
sends (prompt building never fails outward) and the reply it returns. -/
def generate_response (cwd : Except String CwdInfo) (tree : FsNode)
    (prompt : String) (statusSuccess : Bool) (errorText : String)
    (parsed : Except String ChatCompletionResponse) :
    List ChatMessage × Except String String :=
  (requestMessages cwd tree prompt, handleApiResponse statusSuccess errorText parsed)

/-! ## The raw-mode multiline input loop (src/main.rs lines 80–172)

`read_multiline_input` enables raw mode, then loops on `event::read()?`.
Each loop iteration is driven by one event: either the key read fails (the
`?` propagates the error) or a key arrives and the fallible stdout operation
performed while handling it (`flush`, or the `execute!` cursor movement in
the backspace-across-newline branch) succeeds or fails.  The embedding
records, for every terminating path, both the outcome and whether raw mode
was still enabled when control left the function. -/

/-- The key shapes the loop distinguishes.  A character key carries the
CONTROL-modifier flag, as in the source's `KeyEvent { code, modifiers, .. }`;
Ctrl+S is the `chr 's' true` case, matched by the loop's first arm. -/
inductive MLKey where
  | enter : MLKey
  | backspace : MLKey
  | chr (c : Char) (ctrl : Bool) : MLKey
  | esc : MLKey
  | otherKey : MLKey

/-- One iteration's worth of external input: the key read fails, or a key
arrives and `ioFail` tells whether the stdout operation during its handling
fails. -/
inductive MLEvent where
  | readErr : MLEvent
  | key (k : MLKey) (ioFail : Bool) : MLEvent

/-- How the capture loop ended. -/
inductive MLExit where
  | submitted (s : String) : MLExit
  | canceled : MLExit
  | modeA : MLExit
  | modeH : MLExit
  | procExit0 : MLExit
  | ioError : MLExit
  | pending (buf : String) : MLExit
deriving DecidableEq

/-- Loop outcome plus the raw-mode flag at the moment control leaves
(`pending` = the trace ran out while the loop was still blocked on
`event::read`, raw mode still on). -/
structure MLState where
  exitKind : MLExit
  rawMode : Bool

/-- The keystroke loop (main.rs lines 90–169).  Raw mode is `true`
throughout; the constructors that model `disable_raw_mode()?` set it to
`false`, and every `?`-propagation leaves it `true` — exactly as in the
source, which has no drop guard. -/
def mlLoop : List MLEvent → String → MLState
  | [], buf => ⟨.pending buf, true⟩
  | .readErr :: _, _ => ⟨.ioError, true⟩
  | .key k ioFail :: rest, buf =>
    match k with
    | .enter => if ioFail then ⟨.ioError, true⟩ else mlLoop rest (buf.push '\n')
    | .backspace =>
      if buf.isEmpty then mlLoop rest buf
      else if ioFail then ⟨.ioError, true⟩
      else mlLoop rest (buf.dropRight 1)
    | .chr c ctrl =>
      if ctrl && c = 's' then ⟨.submitted buf, false⟩
      else if ctrl && c = 'c' then ⟨.procExit0, false⟩
      else if ctrl && c = 'a' then ⟨.modeA, false⟩
      else if ctrl && c = 'h' then ⟨.modeH, false⟩
      else if ioFail then ⟨.ioError, true⟩
      else mlLoop rest (buf.push c)
    | .esc => ⟨.canceled, false⟩
    | .otherKey => mlLoop rest buf

/-- `read_multiline_input` (main.rs line 80): raw mode on, empty buffer,
then the loop. -/
def read_multiline_input (evs : List MLEvent) : MLState := mlLoop evs ""

/-! ## The interactive session loop (src/main.rs lines 174–368)

One turn of the `loop` body, driven by the outcomes of its external calls.
`?` occurrences inside `main` (`read_multiline_input()?`, the
`io::stdin().read_line(..)?` of `select_ai_model` and of the execution
confirmation, and `Command::new("bash")...output()?`) propagate out of
`main`, ending the process with a non-zero status; `generate_response`
errors and `OpenAIAgent::new` errors on a model switch are printed and the
loop continues. -/

/-- What `read_multiline_input` produced for a turn: a string, an I/O error
(propagated by `?`), or the in-loop `process::exit(0)` of Ctrl+C. -/
inductive ReadRes where
  | ok (s : String) : ReadRes
  | ioErr : ReadRes
  | exit0 : ReadRes

/-- External outcomes consumed by one turn of the loop. -/
structure TurnIO where
  readRes : ReadRes
  selectRead : Except Unit String
  newAgentOk : Bool
  genRes : Except Unit String
  answers : Nat → Except Unit String
  execRes : Nat → Except Unit Unit

/-- `str::trim` at the `String` level, via the character-list trim. -/
def rustTrim (s : String) : String := String.mk (trimChars s.toList)

/-- `input.trim().parse::<usize>()` (main.rs line 68): digits only, base 10. -/
def parseUsize (s : String) : Option Nat :=
  let l := trimChars s.toList
  if l ≠ [] ∧ l.all Char.isDigit then
    some (l.foldl (fun a c => a * 10 + (c.toNat - 48)) 0)
  else none

/-- `execute_input.trim().eq_ignore_ascii_case("y")` (main.rs line 324). -/
def isYes (s : String) : Bool := rustTrim s = "y" || rustTrim s = "Y"

/-- The per-block confirmation/execution walk (main.rs lines 291–357):
for each block, read the answer (`?` on failure); on an affirmative answer
run the shell command (`?` on spawn failure); otherwise skip. -/
def runBlocks (answers : Nat → Except Unit String)
    (execs : Nat → Except Unit Unit) : List String → Nat → Except Unit Unit
  | [], _ => .ok ()
  | _ :: rest, i =>
    match answers i with
    | .error e => .error e
    | .ok a =>
      if isYes a then
        match execs i with
        | .error e => .error e
        | .ok _ => runBlocks answers execs rest (i + 1)
      else runBlocks answers execs rest (i + 1)

/-- Result of one loop turn. -/
inductive TurnResult where
  | cont : TurnResult
  | fatal : TurnResult
  | exit0 : TurnResult

/-- One turn of the interactive loop (main.rs lines 196–366). -/
def runTurn (t : TurnIO) : TurnResult :=
  match t.readRes with
  | .ioErr => .fatal
  | .exit0 => .exit0
  | .ok s =>
    if s = "ctrl+h" then .cont
    else if s = "ctrl+a" then
      match t.selectRead with
      | .error _ => .fatal
      | .ok sel =>
        match parseUsize sel with
        | some n =>
          if 0 < n && n ≤ 3 then
            if t.newAgentOk then .cont else .cont
          else .cont
        | none => .cont
    else if s = "" then .cont
    else
      match t.genRes with
      | .error _ => .cont
      | .ok resp =>
        match runBlocks t.answers t.execRes (bashBlocks resp) 0 with
        | .error _ => .fatal
        | .ok _ => .cont

/-- Session outcome over a trace of turns. -/
inductive SessionOutcome where
  | running : SessionOutcome
  | exitZero : SessionOutcome
  | abnormalExit : SessionOutcome
  | startupFailure : SessionOutcome
deriving DecidableEq

/-- The interactive loop run over a finite trace of turns. -/
def runSession : List TurnIO → SessionOutcome
  | [] => .running
  | t :: ts =>
    match runTurn t with
    | .cont => runSession ts
    | .fatal => .abnormalExit
    | .exit0 => .exitZero

/-- `main` (main.rs lines 174–368): the startup credential check
(`OpenAIAgent::new`) either fails — `main` returns `Err`, a non-zero exit —
or the interactive loop runs. -/
def mainRun (newAgentOk : Bool) (ts : List TurnIO) : SessionOutcome :=
  if newAgentOk then runSession ts else .startupFailure

/-- A turn none of whose `?`-guarded stdin/shell operations fails: the key
reads succeed, the model-menu line read succeeds, every confirmation read
succeeds, and every spawned shell command starts. -/
def turnClean (t : TurnIO) : Prop :=
  t.readRes ≠ .ioErr ∧ t.selectRead ≠ .error () ∧
  (∀ i, t.answers i ≠ .error ()) ∧ (∀ i, t.execRes i ≠ .error ())

/-! # Theorems -/

/-- When no confirmation read and no shell spawn fails, the block walk never
propagates an error. -/
theorem runBlocks_ok (answers : Nat → Except Unit String)
    (execs : Nat → Except Unit Unit)
    (ha : ∀ i, answers i ≠ .error ()) (he : ∀ i, execs i ≠ .error ()) :
    ∀ (l : List String) (i : Nat), runBlocks answers execs l i = .ok () := by
  intro l
  induction l with
  | nil => intro i; rfl
  | cons b rest ih =>
    intro i
    unfold runBlocks
    cases hA : answers i with
    | error e => cases e; exact absurd hA (ha i)
    | ok a =>
      cases hE : execs i with
      | error e => cases e; exact absurd hE (he i)
      | ok u => cases hy : isYes a <;> simp [hy, hE, ih]

/-- A turn whose stdin/shell operations all succeed cannot end the process
abnormally, whatever the network outcome. -/
theorem runTurn_not_fatal (t : TurnIO) (h : turnClean t) : runTurn t ≠ .fatal := by
  obtain ⟨h1, h2, h3, h4⟩ := h
  unfold runTurn
  cases hR : t.readRes with
  | ioErr => exact absurd hR h1
  | exit0 => nofun
  | ok s =>
    by_cases hH : s = "ctrl+h"
    · simp [hH]
    by_cases hA : s = "ctrl+a"
    · simp only [hH, if_false, hA, if_true]
      cases hS : t.selectRead with
      | error e => cases e; exact absurd hS h2
      | ok sel => cases parseUsize sel <;> simp <;> split <;> simp
    by_cases hE : s = ""
    · simp [hH, hA, hE]
    · simp only [hH, hA, hE, if_false]
      cases t.genRes with
      | error e => nofun
      | ok resp =>
        have hb := runBlocks_ok t.answers t.execRes h3 h4 (bashBlocks resp) 0
        simp [hb]

/-- Claim C2 (amended): once `OpenAIAgent::new` has succeeded at startup, a
session in which every terminal read, confirmation read and shell spawn
succeeds never exits abnormally — in particular `generate_response` errors
never do; but (see the counterexample) terminal-I/O and shell-spawn failures
do propagate out of `main`. -/
theorem session_clean_io_never_abnormal (ts : List TurnIO)
    (h : ∀ t ∈ ts, turnClean t) : mainRun true ts ≠ .abnormalExit := by
  unfold mainRun
  simp only [if_true]
  induction ts with
  | nil => nofun
  | cons t rest ih =>
    have ht := runTurn_not_fatal t (h t (by simp))
    unfold runSession
    cases hT : runTurn t with
    | cont => exact ih (fun t' ht' => h t' (by simp [ht']))
    | fatal => exact absurd hT ht
    | exit0 => nofun

/-- Witness for the amended C2 theorem: a network failure in the first turn
leaves the session running. -/
theorem session_clean_io_never_abnormal_witness :
    mainRun true
      [⟨.ok "hi", .ok "", true, .error (), fun _ => .ok "n", fun _ => .ok ()⟩]
      ≠ .abnormalExit :=
  session_clean_io_never_abnormal
    [⟨.ok "hi", .ok "", true, .error (), fun _ => .ok "n", fun _ => .ok ()⟩]
    (by
      intro t ht
      simp only [List.mem_singleton] at ht
      subst ht
      exact ⟨nofun, nofun, fun i => nofun, fun i => nofun⟩)

/-- Claim C2 (counterexample): startup succeeds, the model answers with one
bash block, the operator confirms, and the shell spawn fails — `main`
propagates the error and the process exits with a non-zero status, refuting
"only the startup credential check can end the session abnormally". -/
theorem session_shell_spawn_failure_is_fatal :
    mainRun true
      [⟨.ok "list files", .ok "", true, .ok "```bash\necho hi\n```",
        fun _ => .ok "y", fun _ => .error ()⟩] = .abnormalExit := by
  decide

/-- Claim C1: evaluation of the capture loop on its exit paths.  On the
submit, cancel, menu and Ctrl+C paths raw mode is disabled before control
leaves; but when `event::read()` fails, or the stdout write during key
handling fails, the `?` propagates the error with raw mode still enabled —
the code contradicts the spec's "raw mode must never be left enabled on any
exit path, including on error". -/
theorem read_multiline_input_raw_mode_paths :
    (read_multiline_input [.readErr]).exitKind = .ioError ∧
    (read_multiline_input [.readErr]).rawMode = true ∧
    (read_multiline_input [.key (.chr 'x' false) true]).exitKind = .ioError ∧
    (read_multiline_input [.key (.chr 'x' false) true]).rawMode = true ∧
    (read_multiline_input [.key (.chr 's' true) false]).rawMode = false ∧
    (read_multiline_input [.key .esc false]).rawMode = false ∧
    (read_multiline_input [.key (.chr 'c' true) false]).rawMode = false ∧
    (read_multiline_input [.key (.chr 'a' true) false]).rawMode = false ∧
    (read_multiline_input [.key (.chr 'h' true) false]).rawMode = false := by
  decide

/-- Claim C4: on a success HTTP status, an empty `choices` array yields the
"No response from API" request error, and a non-empty one yields the first
choice's message content unmodified. -/
theorem generate_response_choice_handling :
    ∀ (cwd : Except String CwdInfo) (tree : FsNode) (prompt errorText : String),
      (generate_response cwd tree prompt true errorText (.ok ⟨[]⟩)).2 =
        .error "No response from API" ∧
      ∀ (c : ChatCompletionChoice) (cs : List ChatCompletionChoice),
        (generate_response cwd tree prompt true errorText (.ok ⟨c :: cs⟩)).2 =
          .ok c.message.content :=
  fun _ _ _ _ => ⟨rfl, fun _ _ => rfl⟩

/-- Witness for C4: an empty and a one-element `choices` array. -/
theorem generate_response_choice_handling_witness :
    (generate_response (.error "e") .file "q" true "" (.ok ⟨[]⟩)).2 =
      .error "No response from API" ∧
    (generate_response (.error "e") .file "q" true ""
        (.ok ⟨[⟨⟨"assistant", "hello"⟩⟩]⟩)).2 = .ok "hello" :=
  ⟨(generate_response_choice_handling (.error "e") .file "q" "").1,
    (generate_response_choice_handling (.error "e") .file "q" "").2
      ⟨⟨"assistant", "hello"⟩⟩ []⟩

/-- Claim C5: whenever system-prompt construction fails (working-directory
resolution or directory scan), `generate_response` uses the fixed default
prompt verbatim, records the non-fatal warning, and still builds and sends
the request — the failure never escapes. -/
theorem prompt_build_failure_falls_back :
    ∀ (cwd : Except String CwdInfo) (tree : FsNode)
      (prompt errorText e : String) (statusSuccess : Bool)
      (parsed : Except String ChatCompletionResponse),
      build_system_prompt cwd tree = .error e →
        systemPromptChoice cwd tree = (DEFAULT_SYSTEM_PROMPT, true) ∧
        (generate_response cwd tree prompt statusSuccess errorText parsed).1 =
          [⟨"system", DEFAULT_SYSTEM_PROMPT⟩, ⟨"user", prompt⟩] := by
  intro cwd tree prompt errorText e statusSuccess parsed h
  have hc : systemPromptChoice cwd tree = (DEFAULT_SYSTEM_PROMPT, true) := by
    unfold systemPromptChoice
    rw [h]
  exact ⟨hc, by simp [generate_response, requestMessages, hc]⟩

/-- Witness for C5: a failed `current_dir` and a failed directory read each
trigger the fallback. -/
theorem prompt_build_failure_falls_back_witness :
    (systemPromptChoice (.error "getcwd failed") .file = (DEFAULT_SYSTEM_PROMPT, true) ∧
      (generate_response (.error "getcwd failed") .file "list files" true "" (.ok ⟨[]⟩)).1 =
        [⟨"system", DEFAULT_SYSTEM_PROMPT⟩, ⟨"user", "list files"⟩]) ∧
    systemPromptChoice (.ok ⟨"/w", some "w"⟩) (.dir false []) = (DEFAULT_SYSTEM_PROMPT, true) :=
  ⟨prompt_build_failure_falls_back (.error "getcwd failed") .file "list files" ""
      "getcwd failed" true (.ok ⟨[]⟩) rfl,
    (prompt_build_failure_falls_back (.ok ⟨"/w", some "w"⟩) (.dir false []) "x" ""
      "read_dir failed" true (.ok ⟨[]⟩) rfl).1⟩

/-! ### Extractor lemmas -/

/-- `isPrefixOf` holds on an appended extension. -/
theorem isPrefixOf_append_self (w x : List Char) : w.isPrefixOf (w ++ x) = true := by
  induction w with
  | nil => simp [List.isPrefixOf]
  | cons c cs ih => simp [List.isPrefixOf, ih]

/-- `isPrefixOf` implies the prefix relation. -/
theorem prefix_of_isPrefixOf : ∀ {w l : List Char}, w.isPrefixOf l = true → w <+: l := by
  intro w
  induction w with
  | nil => exact fun {l} _ => ⟨l, rfl⟩
  | cons c cs ih =>
    intro l h
    cases l with
    | nil => simp [List.isPrefixOf] at h
    | cons d ds =>
      simp only [List.isPrefixOf, Bool.and_eq_true, beq_iff_eq] at h
      exact (List.cons_prefix_cons).mpr ⟨h.1, ih h.2⟩

/-- Contrapositive bridge from the prefix relation to `isPrefixOf`. -/
theorem isPrefixOf_false_of_not {w l : List Char} (h : ¬ w <+: l) :
    w.isPrefixOf l = false := by
  cases hp : w.isPrefixOf l
  · rfl
  · exact absurd (prefix_of_isPrefixOf hp) h

/-- The fence recognizes itself at the head. -/
theorem fence_starts_self (x : List Char) :
    fence.isPrefixOf (backtick :: backtick :: backtick :: x) = true := by
  simp [fence, List.isPrefixOf]

/-- The fence does not start at a non-backtick character. -/
theorem fence_starts_false {c : Char} (hc : c ≠ backtick) (cs : List Char) :
    fence.isPrefixOf (c :: cs) = false := by
  have hb : (backtick == c) = false := by
    simp only [beq_eq_false_iff_ne, ne_eq]
    exact fun he => hc he.symm
  simp [fence, List.isPrefixOf, hb]

/-- Scanning skips over a backtick-free prefix. -/
theorem findFenceMatch_append {pre l : List Char} (h : backtick ∉ pre) :
    findFenceMatch (pre ++ l) = findFenceMatch l := by
  induction pre with
  | nil => rfl
  | cons c cs ih =>
    have hc : c ≠ backtick := fun he => h (by simp [he])
    have hmem : backtick ∉ cs := fun hm => h (List.mem_cons_of_mem _ hm)
    rw [List.cons_append]
    conv_lhs => unfold findFenceMatch
    simp only [fence_starts_false hc, Bool.false_eq_true, if_false]
    exact ih hmem

/-- The lazy capture stops at the first fence after a backtick-free body. -/
theorem splitAtFence_append {b : List Char} (h : backtick ∉ b) (rest : List Char) :
    splitAtFence (b ++ backtick :: backtick :: backtick :: rest) = some (b, rest) := by
  induction b with
  | nil =>
    rw [List.nil_append]
    unfold splitAtFence
    simp [fence_starts_self]
  | cons c cs ih =>
    have hc : c ≠ backtick := fun he => h (by simp [he])
    have hmem : backtick ∉ cs := fun hm => h (List.mem_cons_of_mem _ hm)
    rw [List.cons_append]
    unfold splitAtFence
    simp only [fence_starts_false hc, Bool.false_eq_true, if_false, ih hmem]

/-- No capture can close without a backtick. -/
theorem splitAtFence_none {l : List Char} (h : backtick ∉ l) : splitAtFence l = none := by
  induction l with
  | nil => rfl
  | cons c cs ih =>
    have hc : c ≠ backtick := fun he => h (by simp [he])
    have hmem : backtick ∉ cs := fun hm => h (List.mem_cons_of_mem _ hm)
    unfold splitAtFence
    simp only [fence_starts_false hc, Bool.false_eq_true, if_false, ih hmem]

/-- No match exists in backtick-free text. -/
theorem findFenceMatch_none {l : List Char} (h : backtick ∉ l) : findFenceMatch l = none := by
  induction l with
  | nil => rfl
  | cons c cs ih =>
    have hc : c ≠ backtick := fun he => h (by simp [he])
    have hmem : backtick ∉ cs := fun hm => h (List.mem_cons_of_mem _ hm)
    unfold findFenceMatch
    simp only [fence_starts_false hc, Bool.false_eq_true, if_false]
    exact ih hmem

/-- A literal `bash` tag is consumed. -/
theorem tagSkip_bash (x : List Char) : tagSkip ("bash".toList ++ x) = x := by
  have h4 : "bash".toList = ['b', 'a', 's', 'h'] := by decide
  unfold tagSkip
  simp only [isPrefixOf_append_self, if_true]
  rw [h4]
  rfl

/-- Without a `bash` or `sh` head the empty tag alternative applies. -/
theorem tagSkip_id {l : List Char} (hb : ¬ "bash".toList <+: l)
    (hs : ¬ "sh".toList <+: l) : tagSkip l = l := by
  unfold tagSkip
  simp only [isPrefixOf_false_of_not hb, isPrefixOf_false_of_not hs,
    Bool.false_eq_true, if_false]

/-- A backtick-free prefix of `x ++ backtick :: z` is a prefix of `x`. -/
theorem prefix_stop_at_backtick {w : List Char} (hw : backtick ∉ w) :
    ∀ {x z : List Char}, w <+: x ++ backtick :: z → w <+: x := by
  induction w with
  | nil => exact fun {x z} _ => ⟨x, rfl⟩
  | cons c w' ih =>
    intro x z h
    have hc : c ≠ backtick := fun he => hw (by simp [he])
    have hw' : backtick ∉ w' := fun hm => hw (List.mem_cons_of_mem _ hm)
    cases x with
    | nil =>
      rw [List.nil_append, List.cons_prefix_cons] at h
      exact absurd h.1 hc
    | cons a x' =>
      rw [List.cons_append, List.cons_prefix_cons] at h
      exact (List.cons_prefix_cons).mpr ⟨h.1, ih hw' h.2⟩

/-- Lifting non-prefix-ness of a tag across the closing fence and tail. -/
theorem not_prefix_append_fence {w b rest : List Char} (hw : backtick ∉ w)
    (h : ¬ w <+: b) : ¬ w <+: b ++ backtick :: rest :=
  fun hp => h (prefix_stop_at_backtick hw hp)

/-- Leftmost match at an untagged fence with backtick-free body. -/
theorem findFenceMatch_untagged {b : List Char} (hb : backtick ∉ b)
    (hbash : ¬ "bash".toList <+: b) (hsh : ¬ "sh".toList <+: b) (rest : List Char) :
    findFenceMatch (fence ++ (b ++ (fence ++ rest))) = some (b, rest) := by
  have hstep : fence ++ (b ++ (fence ++ rest)) =
      backtick :: backtick :: backtick :: (b ++ (fence ++ rest)) := rfl
  rw [hstep]
  unfold findFenceMatch
  simp only [fence_starts_self, if_true, List.drop_succ_cons, List.drop_zero]
  have hbt : backtick ∉ "bash".toList := by decide
  have hst : backtick ∉ "sh".toList := by decide
  have hb2 : b ++ (fence ++ rest) = b ++ backtick :: backtick :: backtick :: rest := rfl
  rw [hb2, tagSkip_id (not_prefix_append_fence hbt hbash)
    (not_prefix_append_fence hst hsh), splitAtFence_append hb]

/-- Leftmost match at a `bash`-tagged fence with backtick-free body. -/
theorem findFenceMatch_bash_tag {b : List Char} (hb : backtick ∉ b) (rest : List Char) :
    findFenceMatch (fence ++ ("bash".toList ++ (b ++ (fence ++ rest)))) = some (b, rest) := by
  have hstep : fence ++ ("bash".toList ++ (b ++ (fence ++ rest))) =
      backtick :: backtick :: backtick :: ("bash".toList ++ (b ++ (fence ++ rest))) := rfl
  rw [hstep]
  unfold findFenceMatch
  simp only [fence_starts_self, if_true, List.drop_succ_cons, List.drop_zero]
  rw [tagSkip_bash]
  have hb2 : b ++ (fence ++ rest) = b ++ backtick :: backtick :: backtick :: rest := rfl
  rw [hb2, splitAtFence_append hb]

/-- The tag consumption never lengthens the text. -/
theorem tagSkip_length (l : List Char) : (tagSkip l).length ≤ l.length := by
  unfold tagSkip
  split
  · simp
  · split
    · simp
    · exact Nat.le_refl _

/-- The text after a capture is strictly shorter. -/
theorem splitAtFence_rest_length :
    ∀ {l cap rest : List Char}, splitAtFence l = some (cap, rest) →
      rest.length < l.length := by
  intro l
  induction l with
  | nil => intro cap rest h; simp [splitAtFence] at h
  | cons c cs ih =>
    intro cap rest h
    unfold splitAtFence at h
    split at h
    · injection h with h'
      injection h' with h1 h2
      subst h2
      have := Nat.sub_le cs.length 2
      simp only [List.length_drop, List.length_cons]
      omega
    · cases hm : splitAtFence cs with
      | none => rw [hm] at h; cases h
      | some p =>
        obtain ⟨cap', rest'⟩ := p
        rw [hm] at h
        injection h with h'
        injection h' with h1 h2
        subst h2
        have := ih hm
        simp only [List.length_cons]
        omega

/-- The text after a full match is strictly shorter. -/
theorem findFenceMatch_rest_length :
    ∀ {l cap rest : List Char}, findFenceMatch l = some (cap, rest) →
      rest.length < l.length := by
  intro l
  induction l with
  | nil => intro _ _ h; simp [findFenceMatch] at h
  | cons c cs ih =>
    intro cap rest h
    unfold findFenceMatch at h
    split at h
    · cases hm : splitAtFence (tagSkip (cs.drop 2)) with
      | none =>
        rw [hm] at h
        exact Nat.lt_trans (ih h) (by simp)
      | some p =>
        obtain ⟨cap', rest'⟩ := p
        rw [hm] at h
        injection h with h'
        injection h' with h1 h2
        subst h2
        have h1' := splitAtFence_rest_length hm
        have h2' := tagSkip_length (cs.drop 2)
        have h3' : (cs.drop 2).length ≤ cs.length := by
          simp only [List.length_drop]
          omega
        simp only [List.length_cons]
        omega
    · exact Nat.lt_trans (ih h) (by simp)

/-- The match count is insensitive to sufficient fuel. -/
theorem extractBlocksAux_fuel :
    ∀ (f₁ : Nat) {l : List Char} (f₂ : Nat), l.length ≤ f₁ → l.length ≤ f₂ →
      extractBlocksAux f₁ l = extractBlocksAux f₂ l := by
  intro f₁
  induction f₁ with
  | zero =>
    intro l f₂ h1 h2
    have hnil : l = [] := List.eq_nil_of_length_eq_zero (Nat.le_zero.mp h1)
    subst hnil
    cases f₂ <;> rfl
  | succ f ih =>
    intro l f₂ h1 h2
    cases hm : findFenceMatch l with
    | none =>
      cases f₂ with
      | zero =>
        have hnil : l = [] := List.eq_nil_of_length_eq_zero (Nat.le_zero.mp h2)
        subst hnil
        rfl
      | succ g => simp [extractBlocksAux, hm]
    | some p =>
      obtain ⟨cap, rest⟩ := p
      have hlt := findFenceMatch_rest_length hm
      cases f₂ with
      | zero =>
        have hnil : l = [] := List.eq_nil_of_length_eq_zero (Nat.le_zero.mp h2)
        subst hnil
        simp [findFenceMatch] at hm
      | succ g =>
        simp only [extractBlocksAux, hm]
        exact congrArg (cap :: ·) (ih g (by omega) (by omega))

/-- `captures_iter` step: one match peels off one capture. -/
theorem extractBlocks_cons {l cap rest : List Char}
    (h : findFenceMatch l = some (cap, rest)) :
    extractBlocks l = cap :: extractBlocks rest := by
  have hlt := findFenceMatch_rest_length h
  have hne : l ≠ [] := by
    intro he
    subst he
    simp [findFenceMatch] at h
  obtain ⟨c, cs, rfl⟩ := List.exists_cons_of_ne_nil hne
  unfold extractBlocks
  simp only [List.length_cons, extractBlocksAux, h]
  refine congrArg (cap :: ·) (extractBlocksAux_fuel cs.length rest.length ?_ ?_)
  · simp only [List.length_cons] at hlt
    omega
  · exact Nat.le_refl _

/-- `captures_iter` stops when no match remains. -/
theorem extractBlocks_nil_of_none {l : List Char} (h : findFenceMatch l = none) :
    extractBlocks l = [] := by
  unfold extractBlocks
  cases l with
  | nil => rfl
  | cons c cs => simp [extractBlocksAux, h]

/-- Right-trimming after a whitespace-free tag keeps the tag as a prefix. -/
theorem trim_keeps_tag {t : List Char} (hne : t ≠ [])
    (htw : ∀ c ∈ t, c.isWhitespace = false) (b : List Char) :
    t <+: trimChars (t ++ b) := by
  obtain ⟨c0, t', rfl⟩ := List.exists_cons_of_ne_nil hne
  unfold trimChars
  rw [List.cons_append, List.dropWhile_cons, htw c0 (by simp)]
  simp only [Bool.false_eq_true, if_false]
  rw [show c0 :: (t' ++ b) = (c0 :: t') ++ b from rfl, List.reverse_append,
    List.dropWhile_append]
  split
  · have hTrev : (c0 :: t').reverse.dropWhile Char.isWhitespace = (c0 :: t').reverse := by
      cases hr : (c0 :: t').reverse with
      | nil => rfl
      | cons d r =>
        have hd : d ∈ c0 :: t' := by
          rw [← List.mem_reverse, hr]
          simp
        rw [List.dropWhile_cons, htw d hd]
        simp
    rw [hTrev, List.reverse_reverse]
  · rw [List.reverse_append, List.reverse_reverse]
    exact ⟨_, rfl⟩

/-- Claim C3: for text consisting of exactly two fenced blocks — one tagged
`bash`, one untagged — separated and surrounded by backtick-free material,
the extraction produces exactly the two block bodies, in document order,
each trimmed of leading and trailing whitespace. -/
theorem two_block_extraction (pre b1 mid b2 post : List Char)
    (hpre : backtick ∉ pre) (hb1 : backtick ∉ b1) (hmid : backtick ∉ mid)
    (hb2 : backtick ∉ b2) (hpost : backtick ∉ post)
    (hb2bash : ¬ "bash".toList <+: b2) (hb2sh : ¬ "sh".toList <+: b2) :
    bashBlocks (String.mk (pre ++ fence ++ "bash".toList ++ b1 ++ fence ++
        mid ++ fence ++ b2 ++ fence ++ post)) =
      [String.mk (trimChars b1), String.mk (trimChars b2)] := by
  simp only [bashBlocks]
  have htl : (String.mk (pre ++ fence ++ "bash".toList ++ b1 ++ fence ++
      mid ++ fence ++ b2 ++ fence ++ post)).toList =
      pre ++ fence ++ "bash".toList ++ b1 ++ fence ++
      mid ++ fence ++ b2 ++ fence ++ post := rfl
  rw [htl]
  simp only [List.append_assoc]
  have e1 : findFenceMatch (pre ++ (fence ++ ("bash".toList ++ (b1 ++ (fence ++
      (mid ++ (fence ++ (b2 ++ (fence ++ post))))))))) =
      some (b1, mid ++ (fence ++ (b2 ++ (fence ++ post)))) := by
    rw [findFenceMatch_append hpre]
    exact findFenceMatch_bash_tag hb1 _
  have e2 : findFenceMatch (mid ++ (fence ++ (b2 ++ (fence ++ post)))) =
      some (b2, post) := by
    rw [findFenceMatch_append hmid]
    exact findFenceMatch_untagged hb2 hb2bash hb2sh _
  rw [extractBlocks_cons e1, extractBlocks_cons e2,
    extractBlocks_nil_of_none (findFenceMatch_none hpost)]
  rfl

/-- Witness for C3: a concrete reply with a `bash`-tagged block and an
untagged block. -/
theorem two_block_extraction_witness :
    bashBlocks (String.mk ("reply: ".toList ++ fence ++ "bash".toList ++
        "\necho hi\n".toList ++ fence ++ "\nand\n".toList ++ fence ++
        "\nls -la\n".toList ++ fence ++ "\ndone".toList)) =
      [String.mk (trimChars "\necho hi\n".toList),
        String.mk (trimChars "\nls -la\n".toList)] :=
  two_block_extraction "reply: ".toList "\necho hi\n".toList "\nand\n".toList
    "\nls -la\n".toList "\ndone".toList (by decide) (by decide) (by decide)
    (by decide) (by decide) (by decide) (by decide)

/-- Claim C9 (counterexample): the block tagged `shell` — a language other
than `bash` or `sh` — is not matched via the empty-tag alternative: the
regex consumes `sh` as the tag, so the captured body starts with `ell`, not
with the language word. -/
theorem shell_tag_stripped :
    bashBlocks "```shell\nls\n```" = ["ell\nls"] ∧
    ¬ ("shell".toList <+: "ell\nls".toList) := by
  decide

/-- Claim C9 (amended): for a fenced block whose tag-plus-body text does not
begin with `bash` or `sh`, the regex matches the block via its empty-tag
alternative, capturing tag and body together, and the language word (the
whitespace-free tag) is the first token — a prefix — of the trimmed captured
body. -/
theorem other_tag_extraction (pre t b post : List Char)
    (hpre : backtick ∉ pre) (ht : backtick ∉ t) (hb : backtick ∉ b)
    (hpost : backtick ∉ post) (hne : t ≠ [])
    (htw : ∀ c ∈ t, c.isWhitespace = false)
    (hbash : ¬ "bash".toList <+: t ++ b) (hsh : ¬ "sh".toList <+: t ++ b) :
    bashBlocks (String.mk (pre ++ fence ++ t ++ b ++ fence ++ post)) =
      [String.mk (trimChars (t ++ b))] ∧
    t <+: trimChars (t ++ b) := by
  constructor
  · simp only [bashBlocks]
    have htl : (String.mk (pre ++ fence ++ t ++ b ++ fence ++ post)).toList =
        pre ++ fence ++ t ++ b ++ fence ++ post := rfl
    rw [htl]
    simp only [List.append_assoc]
    have htb : backtick ∉ t ++ b := by
      intro hm
      rcases List.mem_append.mp hm with hm' | hm'
      · exact ht hm'
      · exact hb hm'
    have e1 : findFenceMatch (pre ++ (fence ++ (t ++ (b ++ (fence ++ post))))) =
        some (t ++ b, post) := by
      rw [findFenceMatch_append hpre, show t ++ (b ++ (fence ++ post)) =
        (t ++ b) ++ (fence ++ post) from (List.append_assoc t b _).symm]
      exact findFenceMatch_untagged htb hbash hsh _
    rw [extractBlocks_cons e1,
      extractBlocks_nil_of_none (findFenceMatch_none hpost)]
    rfl
  · exact trim_keeps_tag hne htw b

/-! ### Scanner lemmas: rendering, ordering, and entry view -/

/-- Folding `++` over strings from an appended seed. -/
theorem foldl_append_string : ∀ (l : List String) (a b : String),
    l.foldl (· ++ ·) (a ++ b) = a ++ l.foldl (· ++ ·) b := by
  intro l
  induction l with
  | nil => intro a b; rfl
  | cons x xs ih =>
    intro a b
    simp only [List.foldl_cons]
    rw [String.append_assoc, ih]

/-- `String.join` peels one element. -/
theorem string_join_cons (a : String) (l : List String) :
    String.join (a :: l) = a ++ String.join l := by
  show (a :: l).foldl (· ++ ·) "" = a ++ l.foldl (· ++ ·) ""
  simp only [List.foldl_cons]
  rw [show ("" ++ a : String) = a ++ "" from by simp, foldl_append_string]

/-- Rendering distributes over cons. -/
theorem renderAll_cons (e : REntry) (l : List REntry) :
    renderAll (e :: l) = renderEntry e ++ renderAll l := by
  unfold renderAll
  rw [List.map_cons, string_join_cons]

/-- Rendering distributes over append. -/
theorem renderAll_append (x y : List REntry) :
    renderAll (x ++ y) = renderAll x ++ renderAll y := by
  induction x with
  | nil => rfl
  | cons e xs ih =>
    rw [List.cons_append, renderAll_cons, renderAll_cons, ih, String.append_assoc]

/-- File entries render to the file lines of the source's second loop. -/
theorem renderAll_files (d : Nat) (fls : List (String × FsNode)) :
    renderAll (fls.map (fun e => ⟨d, .fileE, e.1⟩)) =
      String.join (fls.map (fun e => fileLine d e.1)) := by
  induction fls with
  | nil => rfl
  | cons e rest ih =>
    rw [List.map_cons, renderAll_cons, List.map_cons, string_join_cons, ih]
    rfl

/-- The directory fold renders its entry-level counterpart. -/
theorem foldDirs_renders (f : FsNode → Except String String)
    (g : FsNode → Except String (List REntry)) (d : Nat)
    (hfg : ∀ c, f c = (g c).map renderAll) :
    ∀ l, foldDirs f d l = (foldDirsE g d l).map renderAll := by
  intro l
  induction l with
  | nil => rfl
  | cons e rest ih =>
    simp only [foldDirs, foldDirsE]
    rw [hfg e.2, ih]
    cases g e.2 with
    | error err => rfl
    | ok sub =>
      cases foldDirsE g d rest with
      | error err => rfl
      | ok r =>
        simp only [Except.map, renderAll_cons, renderAll_append]
        rw [show renderEntry ⟨d, .dirE, e.1⟩ = dirLine d e.1 from rfl,
          String.append_assoc]

/-- The scanner's text output is the rendering of its entry-level view. -/
theorem scanA_renders : ∀ (fuel d : Nat) (t : FsNode),
    scanA fuel d t = (entriesOf fuel d t).map renderAll := by
  intro fuel
  induction fuel with
  | zero => intro d t; rfl
  | succ fuel ih =>
    intro d t
    cases t with
    | file => rfl
    | missing => rfl
    | dir readOk children =>
      cases readOk with
      | false => rfl
      | true =>
        simp only [scanA, entriesOf, if_true]
        rw [foldDirs_renders (fun c => scanA fuel (d + 1) c)
          (fun c => entriesOf fuel (d + 1) c) d (fun c => ih (d + 1) c)]
        cases hE : foldDirsE (fun c => entriesOf fuel (d + 1) c) d
            (List.insertionSort entryLe
              ((visibleEntries children).filter (fun e => e.2.isDirNode))) with
        | error err => rfl
        | ok dirPart =>
          simp only [Except.map, renderAll_append, renderAll_files]

/-- `charListLe` is total. -/
theorem charListLe_total : ∀ x y : List Char,
    charListLe x y = true ∨ charListLe y x = true := by
  intro x
  induction x with
  | nil => intro y; left; rfl
  | cons c cs ih =>
    intro y
    cases y with
    | nil => right; rfl
    | cons d ds =>
      rcases lt_trichotomy c d with h | h | h
      · left; simp [charListLe, h]
      · subst h
        rcases ih ds with h' | h'
        · left; simp [charListLe, lt_irrefl, h']
        · right; simp [charListLe, lt_irrefl, h']
      · right; simp [charListLe, h]

/-- `charListLe` is transitive. -/
theorem charListLe_trans : ∀ x y z : List Char,
    charListLe x y = true → charListLe y z = true → charListLe x z = true := by
  intro x
  induction x with
  | nil => intro y z _ _; rfl
  | cons a as ih =>
    intro y z hxy hyz
    cases y with
    | nil => simp [charListLe] at hxy
    | cons b bs =>
      cases z with
      | nil => simp [charListLe] at hyz
      | cons c cs =>
        by_cases hab : a < b
        · have hbc : b < c ∨ b = c := by
            by_cases h1 : b < c
            · exact Or.inl h1
            · by_cases h2 : c < b
              · simp [charListLe, h1, h2] at hyz
              · exact Or.inr (le_antisymm (not_lt.mp h2) (not_lt.mp h1))
          have hac : a < c := by
            rcases hbc with h' | h'
            · exact lt_trans hab h'
            · exact h' ▸ hab
          simp [charListLe, hac]
        · by_cases hba : b < a
          · simp [charListLe, hab, hba] at hxy
          · have hae : a = b := le_antisymm (not_lt.mp hba) (not_lt.mp hab)
            subst hae
            simp only [charListLe, if_neg (lt_irrefl a)] at hxy
            by_cases hac : a < c
            · simp [charListLe, hac]
            · by_cases hca : c < a
              · simp [charListLe, hac, hca] at hyz
              · simp only [charListLe, if_neg hac, if_neg hca] at hyz ⊢
                exact ih bs cs hxy hyz

instance : IsTotal (String × FsNode) entryLe :=
  ⟨fun a b => charListLe_total a.1.toList b.1.toList⟩

instance : IsTrans (String × FsNode) entryLe :=
  ⟨fun a b c hab hbc => charListLe_trans a.1.toList b.1.toList c.1.toList hab hbc⟩

/-- Where each entry produced by the directory fold comes from. -/
theorem foldDirsE_mem (g : FsNode → Except String (List REntry)) (d : Nat) :
    ∀ (l : List (String × FsNode)) (es : List REntry), foldDirsE g d l = .ok es →
      ∀ e ∈ es, (∃ p ∈ l, e = ⟨d, .dirE, p.1⟩) ∨
        (∃ p ∈ l, ∃ sub, g p.2 = .ok sub ∧ e ∈ sub) := by
  intro l
  induction l with
  | nil =>
    intro es h e he
    injection h with h'
    subst h'
    cases he
  | cons p rest ih =>
    intro es h e he
    simp only [foldDirsE] at h
    cases hg : g p.2 with
    | error err => rw [hg] at h; cases h
    | ok sub =>
      rw [hg] at h
      cases hr : foldDirsE g d rest with
      | error err => rw [hr] at h; cases h
      | ok r =>
        rw [hr] at h
        injection h with h'
        subst h'
        rcases List.mem_cons.mp he with rfl | he'
        · exact Or.inl ⟨p, by simp, rfl⟩
        rcases List.mem_append.mp he' with hs | hrr
        · exact Or.inr ⟨p, by simp, sub, hg, hs⟩
        · rcases ih r hr e hrr with ⟨q, hq, he⟩ | ⟨q, hq, sub', hsub', hin⟩
          · exact Or.inl ⟨q, by simp [hq], he⟩
          · exact Or.inr ⟨q, by simp [hq], sub', hsub', hin⟩

/-- No entry of the entry-level view has a name starting with a dot. -/
theorem entriesOf_no_hidden : ∀ (fuel d : Nat) (t : FsNode) (es : List REntry),
    entriesOf fuel d t = .ok es → ∀ e ∈ es, startsWithDot e.name = false := by
  intro fuel
  induction fuel with
  | zero =>
    intro d t es h e he
    injection h with h'
    subst h'
    rw [List.mem_singleton] at he
    subst he
    rfl
  | succ fuel ih =>
    intro d t es h e he
    cases t with
    | file =>
      injection h with h'
      subst h'
      cases he
    | missing =>
      injection h with h'
      subst h'
      cases he
    | dir readOk children =>
      cases readOk with
      | false => cases h
      | true =>
        simp only [entriesOf, if_true] at h
        cases hF : foldDirsE (fun c => entriesOf fuel (d + 1) c) d
            (List.insertionSort entryLe
              ((visibleEntries children).filter (fun e => e.2.isDirNode))) with
        | error err => rw [hF] at h; cases h
        | ok dirPart =>
          rw [hF] at h
          injection h with h'
          subst h'
          rcases List.mem_append.mp he with hd | hf
          · rcases foldDirsE_mem _ d _ dirPart hF e hd with
              ⟨p, hp, rfl⟩ | ⟨p, hp, sub, hsub, hin⟩
            · have hp' : p ∈ (visibleEntries children).filter
                  (fun e => e.2.isDirNode) :=
                (List.perm_insertionSort entryLe _).mem_iff.mp hp
              have hv : p ∈ visibleEntries children := (List.mem_filter.mp hp').1
              have := (List.mem_filter.mp hv).2
              simpa using this
            · exact ih (d + 1) p.2 sub hsub e hin
          · rcases List.mem_map.mp hf with ⟨q, hq, rfl⟩
            have hq' : q ∈ (visibleEntries children).filter
                (fun e => !(e.2.isDirNode)) :=
              (List.perm_insertionSort entryLe _).mem_iff.mp hq
            have hv : q ∈ visibleEntries children := (List.mem_filter.mp hq').1
            have := (List.mem_filter.mp hv).2
            simpa using this

/-- Claim C6: for every directory tree, depth limit and starting depth, the
tree text produced by `scan_directory` is the rendering of an entry list in
which no entry's name starts with a dot — hidden entries are excluded at
every level of the recursion. -/
theorem scan_output_no_hidden_names (t : FsNode) (max_depth current_depth : Nat)
    (es : List REntry)
    (h : entriesOf (max_depth + 1 - current_depth) current_depth t = .ok es) :
    scan_directory t max_depth current_depth = .ok (renderAll es) ∧
    ∀ e ∈ es, startsWithDot e.name = false := by
  constructor
  · unfold scan_directory
    rw [scanA_renders, h]
    rfl
  · exact entriesOf_no_hidden _ _ t es h

/-- Witness for C6: a tree carrying `.git` and `.hidden` entries at two
depths; neither name survives into the entry view. -/
theorem scan_output_no_hidden_names_witness :
    scan_directory
        (.dir true [(".git", .dir true [("config", .file)]),
          ("src", .dir true [(".hidden", .file), ("main.rs", .file)]),
          ("a.txt", .file)]) 2 0 =
      .ok (renderAll [⟨0, .dirE, "src"⟩, ⟨1, .fileE, "main.rs"⟩,
        ⟨0, .fileE, "a.txt"⟩]) ∧
    ∀ e ∈ [(⟨0, .dirE, "src"⟩ : REntry), ⟨1, .fileE, "main.rs"⟩,
        ⟨0, .fileE, "a.txt"⟩], startsWithDot e.name = false :=
  scan_output_no_hidden_names
    (.dir true [(".git", .dir true [("config", .file)]),
      ("src", .dir true [(".hidden", .file), ("main.rs", .file)]),
      ("a.txt", .file)]) 2 0
    [⟨0, .dirE, "src"⟩, ⟨1, .fileE, "main.rs"⟩, ⟨0, .fileE, "a.txt"⟩]
    (by decide)

/-- At depth cutoff the scanner of every child yields the placeholder, so
the directory fold emits one line plus `"..."` per subdirectory. -/
theorem foldDirs_depth_zero (d : Nat) :
    ∀ l : List (String × FsNode),
      foldDirs (fun _ => Except.ok "...") d l =
        .ok (String.join (l.map (fun e => dirLine d e.1 ++ "..."))) := by
  intro l
  induction l with
  | nil => rfl
  | cons e rest ih =>
    simp only [foldDirs, ih, List.map_cons, string_join_cons,
      String.append_assoc]

/-- Claim C7: at `max_depth = 0` the scan of a readable directory renders
exactly the immediate children — each subdirectory line followed by the
literal `"..."` instead of its contents, then the file lines — with every
listed entry an immediate child (no grandchildren); and in general, at any
depth beyond `max_depth` the scanner returns the literal `"..."` instead of
recursing. -/
theorem scan_depth_cutoff :
    (∀ children : List (String × FsNode),
      scan_directory (.dir true children) 0 0 = .ok
        (String.join ((List.insertionSort entryLe ((visibleEntries children).filter
            (fun e => e.2.isDirNode))).map (fun e => dirLine 0 e.1 ++ "...")) ++
          String.join ((List.insertionSort entryLe ((visibleEntries children).filter
            (fun e => !(e.2.isDirNode)))).map (fun e => fileLine 0 e.1))) ∧
      (∀ p ∈ List.insertionSort entryLe ((visibleEntries children).filter
          (fun e => e.2.isDirNode)), p ∈ children) ∧
      (∀ p ∈ List.insertionSort entryLe ((visibleEntries children).filter
          (fun e => !(e.2.isDirNode))), p ∈ children)) ∧
    (∀ (t : FsNode) (max_depth current_depth : Nat), max_depth < current_depth →
      scan_directory t max_depth current_depth = .ok "...") := by
  constructor
  · intro children
    refine ⟨?_, ?_, ?_⟩
    · show scanA 1 0 (.dir true children) = _
      simp only [scanA, if_true]
      rw [foldDirs_depth_zero]
    · intro p hp
      have h1 := (List.perm_insertionSort entryLe _).mem_iff.mp hp
      exact List.mem_of_mem_filter (List.mem_of_mem_filter h1)
    · intro p hp
      have h1 := (List.perm_insertionSort entryLe _).mem_iff.mp hp
      exact List.mem_of_mem_filter (List.mem_of_mem_filter h1)
  · intro t max_depth current_depth h
    unfold scan_directory
    rw [show max_depth + 1 - current_depth = 0 from by omega]
    rfl

/-- Witness for C7: a directory with one subdirectory (holding a grandchild
that must not appear) and one file, at `max_depth = 0`; and a cutoff call. -/
theorem scan_depth_cutoff_witness :
    scan_directory (.dir true [("sub", .dir true [("deep.txt", .file)]),
        ("top.txt", .file)]) 0 0 = .ok
      (String.join ((List.insertionSort entryLe ((visibleEntries
          [("sub", .dir true [("deep.txt", .file)]), ("top.txt", .file)]).filter
          (fun e => e.2.isDirNode))).map (fun e => dirLine 0 e.1 ++ "...")) ++
        String.join ((List.insertionSort entryLe ((visibleEntries
          [("sub", .dir true [("deep.txt", .file)]), ("top.txt", .file)]).filter
          (fun e => !(e.2.isDirNode)))).map (fun e => fileLine 0 e.1))) ∧
    scan_directory (.dir true [("x", .file)]) 1 2 = .ok "..." :=
  ⟨(scan_depth_cutoff.1 [("sub", .dir true [("deep.txt", .file)]),
      ("top.txt", .file)]).1,
    scan_depth_cutoff.2 (.dir true [("x", .file)]) 1 2 (by omega)⟩

/-- Pointwise-equal child scanners fold identically. -/
theorem foldDirs_congr {f g : FsNode → Except String String}
    (h : ∀ c, f c = g c) (d : Nat) (l : List (String × FsNode)) :
    foldDirs f d l = foldDirs g d l := by
  rw [show f = g from funext h]

/-- Claim C8: a readable directory below the depth limit is rendered from a
lexicographically sorted permutation of its visible subdirectories, followed
by a lexicographically sorted permutation of its visible files — so at every
level subdirectory lines precede file lines, with each line indented by
`indentOf current_depth`, two spaces per depth level. -/
theorem scan_sorted_dirs_before_files (children : List (String × FsNode))
    (max_depth current_depth : Nat) (h : current_depth ≤ max_depth) :
    ∃ ds fls : List (String × FsNode),
      ds.Perm ((visibleEntries children).filter (fun e => e.2.isDirNode)) ∧
      fls.Perm ((visibleEntries children).filter (fun e => !(e.2.isDirNode))) ∧
      List.Sorted (fun a b : String => nameLe a b = true) (ds.map Prod.fst) ∧
      List.Sorted (fun a b : String => nameLe a b = true) (fls.map Prod.fst) ∧
      scan_directory (.dir true children) max_depth current_depth =
        (match foldDirs (fun c => scan_directory c max_depth (current_depth + 1))
            current_depth ds with
         | .error err => .error err
         | .ok dirPart => .ok (dirPart ++
             String.join (fls.map (fun e => fileLine current_depth e.1)))) := by
  refine ⟨List.insertionSort entryLe ((visibleEntries children).filter
      (fun e => e.2.isDirNode)),
    List.insertionSort entryLe ((visibleEntries children).filter
      (fun e => !(e.2.isDirNode))),
    List.perm_insertionSort entryLe _, List.perm_insertionSort entryLe _,
    ?_, ?_, ?_⟩
  · exact List.Pairwise.map Prod.fst (fun a b hab => hab)
      (List.sorted_insertionSort entryLe _)
  · exact List.Pairwise.map Prod.fst (fun a b hab => hab)
      (List.sorted_insertionSort entryLe _)
  · unfold scan_directory
    rw [show max_depth + 1 - current_depth = (max_depth - current_depth) + 1
      from by omega]
    simp only [scanA, if_true]
    have harg : (fun c => scanA (max_depth - current_depth)
        (current_depth + 1) c) =
        (fun c => scanA (max_depth + 1 - (current_depth + 1))
          (current_depth + 1) c) := by
      refine funext (fun c => ?_)
      rw [show max_depth + 1 - (current_depth + 1) = max_depth - current_depth
        from by omega]
    rw [harg]

/-- Witness for C8: three children arriving unsorted, files mixed in. -/
theorem scan_sorted_dirs_before_files_witness :
    ∃ ds fls : List (String × FsNode),
      ds.Perm ((visibleEntries [("b.txt", FsNode.file), ("zz", .dir true []),
        ("aa", .dir true [])]).filter (fun e => e.2.isDirNode)) ∧
      fls.Perm ((visibleEntries [("b.txt", FsNode.file), ("zz", .dir true []),
        ("aa", .dir true [])]).filter (fun e => !(e.2.isDirNode))) ∧
      List.Sorted (fun a b : String => nameLe a b = true) (ds.map Prod.fst) ∧
      List.Sorted (fun a b : String => nameLe a b = true) (fls.map Prod.fst) ∧
      scan_directory (.dir true [("b.txt", FsNode.file), ("zz", .dir true []),
          ("aa", .dir true [])]) 1 0 =
        (match foldDirs (fun c => scan_directory c 1 1) 0 ds with
         | .error err => .error err
         | .ok dirPart => .ok (dirPart ++
             String.join (fls.map (fun e => fileLine 0 e.1)))) :=
  scan_sorted_dirs_before_files
    [("b.txt", FsNode.file), ("zz", .dir true []), ("aa", .dir true [])] 1 0
    (by omega)

/-- The directory fold succeeds when every child scan succeeds. -/
theorem foldDirs_ok (f : FsNode → Except String String) (d : Nat) :
    ∀ l : List (String × FsNode), (∀ e ∈ l, ∃ s, f e.2 = .ok s) →
      ∃ r, foldDirs f d l = .ok r := by
  intro l
  induction l with
  | nil => exact fun _ => ⟨"", rfl⟩
  | cons e rest ih =>
    intro h
    obtain ⟨s, hs⟩ := h e (by simp)
    obtain ⟨r, hr⟩ := ih (fun e' he' => h e' (by simp [he']))
    exact ⟨dirLine d e.1 ++ s ++ r, by simp [foldDirs, hs, hr]⟩

/-- A tree with no failing directory reads always scans successfully. -/
theorem scanA_no_fail_ok {t : FsNode} (hnf : NoFail t) :
    ∀ (fuel d : Nat), ∃ s, scanA fuel d t = .ok s := by
  induction hnf with
  | file =>
    intro fuel d
    cases fuel with
    | zero => exact ⟨"...", rfl⟩
    | succ n => exact ⟨"", rfl⟩
  | missing =>
    intro fuel d
    cases fuel with
    | zero => exact ⟨"...", rfl⟩
    | succ n => exact ⟨"", rfl⟩
  | dir children hmem ih =>
    intro fuel d
    cases fuel with
    | zero => exact ⟨"...", rfl⟩
    | succ n =>
      obtain ⟨r, hr⟩ := foldDirs_ok (fun c => scanA n (d + 1) c) d
        (List.insertionSort entryLe ((visibleEntries children).filter
          (fun e => e.2.isDirNode)))
        (fun e he => by
          have he' : e ∈ children :=
            List.mem_of_mem_filter (List.mem_of_mem_filter
              ((List.perm_insertionSort entryLe _).mem_iff.mp he))
          exact ih e he' n (d + 1))
      refine ⟨r ++ String.join (((visibleEntries children).filter
        (fun e => !(e.2.isDirNode))).insertionSort entryLe |>.map
          (fun e => fileLine d e.1)), ?_⟩
      simp only [scanA, if_true, hr]

/-- Claim C10: a path that is not a directory (an existing non-directory or
a missing path) scans to `Ok` with the empty string, and a scan can only
error when some visited directory read fails: on trees where every read
succeeds the result is always `Ok`. -/
theorem scan_non_directory_and_error_source :
    (∀ max_depth : Nat, scan_directory .file max_depth 0 = .ok "" ∧
      scan_directory .missing max_depth 0 = .ok "") ∧
    (∀ (t : FsNode) (max_depth current_depth : Nat), NoFail t →
      ∃ s, scan_directory t max_depth current_depth = .ok s) := by
  constructor
  · exact fun max_depth => ⟨rfl, rfl⟩
  · intro t max_depth current_depth hnf
    exact scanA_no_fail_ok hnf _ _

/-- Witness for C10: concrete non-directory scans and an all-readable tree. -/
theorem scan_non_directory_and_error_source_witness :
    (scan_directory .file 5 0 = .ok "" ∧ scan_directory .missing 5 0 = .ok "") ∧
    ∃ s, scan_directory (.dir true [("a", .file), ("b", .dir true [])]) 2 0 =
      .ok s :=
  ⟨scan_non_directory_and_error_source.1 5,
    scan_non_directory_and_error_source.2
      (.dir true [("a", .file), ("b", .dir true [])]) 2 0
      (NoFail.dir _ (by
        intro e he
        rcases List.mem_cons.mp he with rfl | he2
        · exact NoFail.file
        · rw [List.mem_singleton] at he2
          subst he2
          exact NoFail.dir [] (by intro x hx; cases hx)))⟩

/-- Witness for the amended C9: a `python`-tagged block is captured whole,
with `python` leading the trimmed body. -/
theorem other_tag_extraction_witness :
    bashBlocks (String.mk ("see ".toList ++ fence ++ "python".toList ++
        "\nx = 1\n".toList ++ fence ++ " end".toList)) =
      [String.mk (trimChars ("python".toList ++ "\nx = 1\n".toList))] ∧
    "python".toList <+: trimChars ("python".toList ++ "\nx = 1\n".toList) :=
  other_tag_extraction "see ".toList "python".toList "\nx = 1\n".toList
    " end".toList (by decide) (by decide) (by decide) (by decide) (by decide)
    (by decide) (by decide) (by decide)

end Shellai
